import Mathlib

/-!
# Verification of the todo lifecycle service

Shallow embedding of the todo-list manager's data model (`app/models.py`)
and lifecycle service (`app/todo_service.py`).  The storage backend
(`app/database.py`, the session layer) is not part of the sources; its
primitive operations are modelled from the spec's storage-backend
contract (§6): scoped sessions, insert-returning-generated-id, point
lookup by id, update-in-place, delete-by-id, and ordered full-table scan
by a timestamp field descending.  Timestamps (`datetime.utcnow`) are
modelled as natural numbers supplied to each operation as a `now`
parameter.
-/

/-- `TodoItem` from `app/models.py`: the persisted entity.
`id` is `Optional[int]` (absent until first persisted), `description` a
string with declared `max_length=500`, `completed` a boolean defaulting
to false, `created_at` a timestamp, `updated_at` an optional timestamp
defaulting to absent. -/
structure TodoItem where
  id : Option Nat
  description : String
  completed : Bool
  created_at : Nat
  updated_at : Option Nat
deriving DecidableEq, Repr

/-- `TodoItemCreate` from `app/models.py`: the creation request shape,
carrying only `description`. -/
structure TodoItemCreate where
  description : String
deriving DecidableEq, Repr

/-- `TodoItemUpdate` from `app/models.py`: the update request shape;
both fields optional, defaulting to absent. -/
structure TodoItemUpdate where
  description : Option String := none
  completed : Option Bool := none
deriving DecidableEq, Repr

/-- Validated constructor for `TodoItemCreate`: `app/models.py` declares
`description: str = Field(max_length=500)`, so construction with a
description longer than 500 code units is rejected (`none`). -/
def mkTodoItemCreate (d : String) : Option TodoItemCreate :=
  if d.length ≤ 500 then some ⟨d⟩ else none

/-- Validated constructor for `TodoItemUpdate`: `app/models.py` declares
`description: Optional[str] = Field(default=None, max_length=500)`, so a
present description longer than 500 code units is rejected. -/
def mkTodoItemUpdate (d : Option String) (c : Option Bool) :
    Option TodoItemUpdate :=
  match d with
  | none => some ⟨none, c⟩
  | some s => if s.length ≤ 500 then some ⟨some s, c⟩ else none

/-- Declared persistence constraint on `TodoItem` (`max_length=500` on
the `description` column in `app/models.py`): a row violating it is
rejected at the persistence boundary.
Modelled from the spec: `app/database.py` (the storage backend) is not
under the sources; §7 requires ValidationRejected "at
construction/persistence boundary, before any partial write occurs". -/
def TodoItem.persistable (t : TodoItem) : Bool :=
  t.description.length ≤ 500

/-- The store: the rows of the `todo_items` table in insertion order,
plus the generator for the auto-assigned integer primary key.
Modelled from the spec: `app/database.py` is not under the sources; §6
requires the backend to expose insert-returning-generated-id, point
lookup by id, update-in-place, delete-by-id, ordered scan. -/
structure Store where
  rows : List TodoItem
  nextId : Nat
deriving DecidableEq, Repr

/-- The empty store (fresh database). -/
def Store.empty : Store := ⟨[], 0⟩

/-- Insert-returning-generated-id: assigns the next primary key to the
row and appends it.  Models `session.add` + `commit` + `refresh` for a
new row. Modelled from the spec: storage backend contract (§6). -/
def Store.insert (s : Store) (t : TodoItem) : TodoItem × Store :=
  let t' := { t with id := some s.nextId }
  (t', ⟨s.rows ++ [t'], s.nextId + 1⟩)

/-- Point lookup by primary key: models `session.get(TodoItem, id)`.
Modelled from the spec: storage backend contract (§6). -/
def Store.get (s : Store) (i : Nat) : Option TodoItem :=
  s.rows.find? fun r => r.id = some i

/-- Update-in-place of the row whose primary key matches `t.id`: models
`session.add` + `commit` on a row already persisted.
Modelled from the spec: storage backend contract (§6). -/
def Store.put (s : Store) (t : TodoItem) : Store :=
  ⟨s.rows.map fun r => if r.id = t.id then t else r, s.nextId⟩

/-- Delete-by-id: models `session.delete` + `commit`.
Modelled from the spec: storage backend contract (§6). -/
def Store.deleteRow (s : Store) (i : Nat) : Store :=
  ⟨s.rows.filter fun r => r.id ≠ some i, s.nextId⟩

/-- The scan order used by `get_all_todos`: `created_at` descending
(newest first).  `createdGe a b` holds when `a` may come before `b`. -/
def createdGe (a b : TodoItem) : Prop :=
  b.created_at ≤ a.created_at

instance : DecidableRel createdGe := fun a b =>
  inferInstanceAs (Decidable (b.created_at ≤ a.created_at))

instance : IsTotal TodoItem createdGe :=
  ⟨fun a b => Nat.le_total b.created_at a.created_at⟩

instance : IsTrans TodoItem createdGe :=
  ⟨fun _ _ _ h h' => le_trans h' h⟩

/-- `create_todo` from `app/todo_service.py`: builds a `TodoItem` with
the request's description (other fields at their declared defaults:
`completed = False`, `created_at = now`, `updated_at = None`) and
persists it, returning the refreshed snapshot. -/
def create_todo (todo_data : TodoItemCreate) (now : Nat) (s : Store) :
    TodoItem × Store :=
  s.insert
    { id := none, description := todo_data.description, completed := false,
      created_at := now, updated_at := none }

/-- `get_all_todos` from `app/todo_service.py`:
`select(TodoItem).order_by(desc(TodoItem.created_at))` — every row,
ordered by `created_at` descending.  The backend's ordered scan is
modelled as an insertion sort by `createdGe` (ties resolved in an
implementation-defined way, as the spec allows). -/
def get_all_todos (s : Store) : List TodoItem :=
  s.rows.insertionSort createdGe

/-- `get_todo_by_id` from `app/todo_service.py`: point lookup. -/
def get_todo_by_id (todo_id : Nat) (s : Store) : Option TodoItem :=
  s.get todo_id

/-- `update_todo` from `app/todo_service.py`: absent result if the id is
missing; otherwise overwrites each field present in the request, leaves
absent fields alone, unconditionally stamps `updated_at = now`, persists
and returns the snapshot. -/
def update_todo (todo_id : Nat) (update_data : TodoItemUpdate) (now : Nat)
    (s : Store) : Option TodoItem × Store :=
  match s.get todo_id with
  | none => (none, s)
  | some todo =>
    let todo1 :=
      match update_data.description with
      | some d => { todo with description := d }
      | none => todo
    let todo2 :=
      match update_data.completed with
      | some c => { todo1 with completed := c }
      | none => todo1
    let todo3 := { todo2 with updated_at := some now }
    (some todo3, s.put todo3)

/-- `toggle_todo_completion` from `app/todo_service.py`: absent result
if the id is missing; otherwise flips `completed`, stamps
`updated_at = now`, persists and returns the snapshot. -/
def toggle_todo_completion (todo_id : Nat) (now : Nat) (s : Store) :
    Option TodoItem × Store :=
  match s.get todo_id with
  | none => (none, s)
  | some todo =>
    let todo' := { todo with completed := !todo.completed,
                             updated_at := some now }
    (some todo', s.put todo')

/-- `delete_todo` from `app/todo_service.py`: false if the id is
missing; otherwise hard-deletes the row and returns true. -/
def delete_todo (todo_id : Nat) (s : Store) : Bool × Store :=
  match s.get todo_id with
  | none => (false, s)
  | some _ => (true, s.deleteRow todo_id)

/-- Round a rational to the nearest integer, ties to even — the
behaviour of Python's built-in `round` on exact values. -/
def roundHalfEven (q : ℚ) : ℤ :=
  if q - ⌊q⌋ < 1/2 then ⌊q⌋
  else if 1/2 < q - ⌊q⌋ then ⌊q⌋ + 1
  else if 2 ∣ ⌊q⌋ then ⌊q⌋ else ⌊q⌋ + 1

/-- Python's `round(q, 1)`: round to one decimal place, ties to even. -/
def pyRound1 (q : ℚ) : ℚ :=
  (roundHalfEven (q * 10) : ℚ) / 10

/-- The record returned by `get_todo_stats` in `app/todo_service.py`. -/
structure Stats where
  total : Nat
  completed : Nat
  pending : Nat
  completion_rate : ℚ
deriving DecidableEq, Repr

/-- `get_todo_stats` from `app/todo_service.py`: derives
`total`/`completed`/`pending` from `get_all_todos()` and computes
`completion_rate = round(completed / total * 100 if total > 0 else 0, 1)`. -/
def get_todo_stats (s : Store) : Stats :=
  let todos := get_all_todos s
  let total := todos.length
  let completed := todos.countP (·.completed)
  let pending := total - completed
  { total := total, completed := completed, pending := pending,
    completion_rate :=
      pyRound1 (if 0 < total then (completed : ℚ) / total * 100 else 0) }

/-! ## Session traces

A session is a sequence of service operations executed from a fresh
database.  `Op` enumerates the four mutating operations; `execOp` runs
one through the service functions above. -/

/-- One mutating service call, with the timestamp the clock supplies to
it. -/
inductive Op where
  | createOp (req : TodoItemCreate) (now : Nat)
  | updateOp (id : Nat) (req : TodoItemUpdate) (now : Nat)
  | toggleOp (id : Nat) (now : Nat)
  | deleteOp (id : Nat)
deriving DecidableEq, Repr

/-- Execute one operation, keeping only the resulting store. -/
def execOp (op : Op) (s : Store) : Store :=
  match op with
  | .createOp r n => (create_todo r n s).2
  | .updateOp i u n => (update_todo i u n s).2
  | .toggleOp i n => (toggle_todo_completion i n s).2
  | .deleteOp i => (delete_todo i s).2

/-- Execute a sequence of operations. -/
def execList (ops : List Op) (s : Store) : Store :=
  ops.foldl (fun s' op => execOp op s') s

/-- Observable events of a session, used to state history invariants:
an item with id `i` was created with timestamp `t`, mutated (by a
successful update or toggle), or deleted. -/
inductive Event where
  | created (i : Nat) (t : Nat)
  | mutated (i : Nat)
  | deleted (i : Nat)
deriving DecidableEq, Repr

/-- The id an event concerns. -/
def Event.idOf : Event → Nat
  | .created i _ => i
  | .mutated i => i
  | .deleted i => i

/-- Events emitted by one operation run against store `s`: a create
always creates; update/toggle/delete emit an event only when the id
exists (otherwise the service returns absent and mutates nothing). -/
def opEvents (op : Op) (s : Store) : List Event :=
  match op with
  | .createOp _ n => [.created s.nextId n]
  | .updateOp i _ _ => if (s.get i).isSome then [.mutated i] else []
  | .toggleOp i _ => if (s.get i).isSome then [.mutated i] else []
  | .deleteOp i => if (s.get i).isSome then [.deleted i] else []

/-- One step of a traced session: run the operation and log its
events. -/
def stepTrace (p : Store × List Event) (op : Op) : Store × List Event :=
  (execOp op p.1, p.2 ++ opEvents op p.1)

/-- A traced session from a fresh database. -/
def execTrace (ops : List Op) : Store × List Event :=
  ops.foldl stepTrace (Store.empty, [])

/-! ## Store lemmas -/

theorem Store.id_of_get {s : Store} {i : Nat} {t : TodoItem}
    (h : s.get i = some t) : t.id = some i := by
  have := List.find?_some h
  exact of_decide_eq_true this

theorem Store.mem_of_get {s : Store} {i : Nat} {t : TodoItem}
    (h : s.get i = some t) : t ∈ s.rows :=
  List.mem_of_find?_eq_some h

theorem find?_map_replace (i : Nat) (t : TodoItem) (hti : t.id = some i) :
    ∀ l : List TodoItem,
      (l.find? fun r => r.id = some i).isSome = true →
      ((l.map fun r => if r.id = t.id then t else r).find?
        fun r => r.id = some i) = some t := by
  intro l
  induction l with
  | nil => intro h; simp [List.find?] at h
  | cons r l ih =>
    intro h
    by_cases hr : r.id = some i
    · have hrt : r.id = t.id := by rw [hr, hti]
      simp only [List.map, if_pos hrt]
      exact List.find?_cons_of_pos _ (by simpa using hti)
    · have hrt : ¬r.id = t.id := by rw [hti]; exact hr
      simp only [List.map, if_neg hrt]
      rw [List.find?_cons_of_neg _ (by simpa using hr)]
      apply ih
      rwa [List.find?_cons_of_neg _ (by simpa using hr)] at h

theorem Store.get_put {s : Store} {i : Nat} {todo t : TodoItem}
    (h : s.get i = some todo) (hid : t.id = todo.id) :
    (s.put t).get i = some t := by
  have hti : t.id = some i := hid.trans (Store.id_of_get h)
  have hsome : (s.rows.find? fun r => r.id = some i).isSome = true := by
    rw [show (s.rows.find? fun r => r.id = some i) = s.get i from rfl, h]
    rfl
  exact find?_map_replace i t hti s.rows hsome

theorem Store.get_deleteRow (s : Store) (i : Nat) :
    (s.deleteRow i).get i = none := by
  apply List.find?_eq_none.mpr
  intro x hx
  simp only [Store.deleteRow, List.mem_filter] at hx
  simpa using hx.2

theorem nextId_execOp (op : Op) (s : Store) :
    s.nextId ≤ (execOp op s).nextId := by
  cases op with
  | createOp r n =>
    simp [execOp, create_todo, Store.insert]
  | updateOp i u n =>
    simp only [execOp, update_todo]
    cases s.get i <;> simp [Store.put]
  | toggleOp i n =>
    simp only [execOp, toggle_todo_completion]
    cases s.get i <;> simp [Store.put]
  | deleteOp i =>
    simp only [execOp, delete_todo]
    cases s.get i <;> simp [Store.deleteRow]

theorem nextId_execList (ops : List Op) (s : Store) :
    s.nextId ≤ (execList ops s).nextId := by
  induction ops generalizing s with
  | nil => exact le_refl _
  | cons op ops ih =>
    exact le_trans (nextId_execOp op s) (ih (execOp op s))

/-! ## The timestamp-bookkeeping invariant -/

/-- History invariant tying a store to its session's event log: every
row's id is an assigned one, its `created_at` is exactly the timestamp
of its (unique) creation event, and its `updated_at` is absent precisely
when no successful mutation has been logged for its id. -/
def TraceInv (p : Store × List Event) : Prop :=
  (∀ e ∈ p.2, e.idOf < p.1.nextId) ∧
  (∀ i c c', Event.created i c ∈ p.2 → Event.created i c' ∈ p.2 → c = c') ∧
  (∀ r ∈ p.1.rows, ∃ i, r.id = some i ∧ i < p.1.nextId ∧
    Event.created i r.created_at ∈ p.2 ∧
    (r.updated_at = none ↔ Event.mutated i ∉ p.2))

theorem traceInv_put {s : Store} {evs : List Event} {i n : Nat}
    {todo t : TodoItem} (hinv : TraceInv (s, evs))
    (hget : s.get i = some todo) (hid : t.id = todo.id)
    (hca : t.created_at = todo.created_at) (hup : t.updated_at = some n) :
    TraceInv (s.put t, evs ++ [Event.mutated i]) := by
  obtain ⟨h1, h2, h3⟩ := hinv
  have hidt : todo.id = some i := Store.id_of_get hget
  obtain ⟨j, hj, hjlt, hjcr, _⟩ := h3 todo (Store.mem_of_get hget)
  have hji : j = i := by
    rw [hidt] at hj; exact (Option.some_injective _ hj.symm)
  subst hji
  refine ⟨?_, ?_, ?_⟩
  · intro e he
    rcases List.mem_append.mp he with he | he
    · exact h1 e he
    · rw [List.mem_singleton] at he
      subst he
      exact hjlt
  · intro k c c' hc hc'
    have hc2 : Event.created k c ∈ evs := by
      rcases List.mem_append.mp hc with h | h
      · exact h
      · simp at h
    have hc2' : Event.created k c' ∈ evs := by
      rcases List.mem_append.mp hc' with h | h
      · exact h
      · simp at h
    exact h2 k c c' hc2 hc2'
  · intro r' hr'
    simp only [Store.put, List.mem_map] at hr'
    obtain ⟨r, hrmem, hrf⟩ := hr'
    by_cases hcase : r.id = t.id
    · rw [if_pos hcase] at hrf
      subst hrf
      refine ⟨j, hid.trans hidt, hjlt, ?_, ?_⟩
      · rw [hca]
        exact List.mem_append_left _ hjcr
      · constructor
        · intro habs
          rw [hup] at habs
          exact absurd habs (Option.noConfusion)
        · intro habs
          exact absurd (List.mem_append_right _ (List.mem_singleton.mpr rfl))
            habs
    · rw [if_neg hcase] at hrf
      subst hrf
      obtain ⟨k, hk, hklt, hkcr, hkiff⟩ := h3 r hrmem
      have hkj : k ≠ j := by
        intro hkj
        apply hcase
        rw [hk, hkj, hid, hidt]
      refine ⟨k, hk, hklt, List.mem_append_left _ hkcr, ?_⟩
      rw [show (Event.mutated k ∈ evs ++ [Event.mutated j]) ↔
            Event.mutated k ∈ evs by simp [hkj]]
      exact hkiff

theorem traceInv_deleteRow {s : Store} {evs : List Event} {i : Nat}
    {todo : TodoItem} (hinv : TraceInv (s, evs))
    (hget : s.get i = some todo) :
    TraceInv (s.deleteRow i, evs ++ [Event.deleted i]) := by
  obtain ⟨h1, h2, h3⟩ := hinv
  have hidt : todo.id = some i := Store.id_of_get hget
  obtain ⟨j, hj, hjlt, _, _⟩ := h3 todo (Store.mem_of_get hget)
  have hji : j = i := by
    rw [hidt] at hj; exact (Option.some_injective _ hj.symm)
  subst hji
  refine ⟨?_, ?_, ?_⟩
  · intro e he
    rcases List.mem_append.mp he with he | he
    · exact h1 e he
    · rw [List.mem_singleton] at he
      subst he
      exact hjlt
  · intro k c c' hc hc'
    have hc2 : Event.created k c ∈ evs := by
      rcases List.mem_append.mp hc with h | h
      · exact h
      · simp at h
    have hc2' : Event.created k c' ∈ evs := by
      rcases List.mem_append.mp hc' with h | h
      · exact h
      · simp at h
    exact h2 k c c' hc2 hc2'
  · intro r hr
    have hrmem : r ∈ s.rows :=
      List.mem_of_mem_filter hr
    obtain ⟨k, hk, hklt, hkcr, hkiff⟩ := h3 r hrmem
    refine ⟨k, hk, hklt, List.mem_append_left _ hkcr, ?_⟩
    rw [show (Event.mutated k ∈ evs ++ [Event.deleted j]) ↔
          Event.mutated k ∈ evs by simp]
    exact hkiff

theorem traceInv_create {s : Store} {evs : List Event}
    (r : TodoItemCreate) (n : Nat) (hinv : TraceInv (s, evs)) :
    TraceInv ((create_todo r n s).2, evs ++ [Event.created s.nextId n]) := by
  obtain ⟨h1, h2, h3⟩ := hinv
  simp only [create_todo, Store.insert]
  refine ⟨?_, ?_, ?_⟩
  · intro e he
    rcases List.mem_append.mp he with he | he
    · exact Nat.lt_succ_of_lt (h1 e he)
    · rw [List.mem_singleton] at he
      subst he
      exact Nat.lt_succ_self _
  · intro k c c' hc hc'
    rcases List.mem_append.mp hc with h | h <;>
      rcases List.mem_append.mp hc' with h' | h'
    · exact h2 k c c' h h'
    · exfalso
      rw [List.mem_singleton] at h'
      have hk : k = s.nextId := by injection h'
      have := h1 _ h
      rw [hk] at this
      exact absurd this (by simp [Event.idOf])
    · exfalso
      rw [List.mem_singleton] at h
      have hk : k = s.nextId := by injection h
      have := h1 _ h'
      rw [hk] at this
      exact absurd this (by simp [Event.idOf])
    · rw [List.mem_singleton] at h h'
      have hc1 : c = n := by injection h
      have hc1' : c' = n := by injection h'
      rw [hc1, hc1']
  · intro t ht
    rcases List.mem_append.mp ht with ht | ht
    · obtain ⟨k, hk, hklt, hkcr, hkiff⟩ := h3 t ht
      refine ⟨k, hk, Nat.lt_succ_of_lt hklt, List.mem_append_left _ hkcr, ?_⟩
      rw [show (Event.mutated k ∈ evs ++ [Event.created s.nextId n]) ↔
            Event.mutated k ∈ evs by simp]
      exact hkiff
    · rw [List.mem_singleton] at ht
      subst ht
      refine ⟨s.nextId, rfl, Nat.lt_succ_self _, ?_, ?_⟩
      · exact List.mem_append_right _ (List.mem_singleton.mpr rfl)
      · refine iff_of_true rfl ?_
        intro habs
        rcases List.mem_append.mp habs with habs | habs
        · have := h1 _ habs
          exact absurd this (by simp [Event.idOf])
        · simp at habs

theorem stepTrace_inv (s : Store) (evs : List Event) (op : Op)
    (hinv : TraceInv (s, evs)) : TraceInv (stepTrace (s, evs) op) := by
  cases op with
  | createOp r n =>
    simpa only [stepTrace, execOp, opEvents] using traceInv_create r n hinv
  | updateOp i u n =>
    cases hg : s.get i with
    | none =>
      simp only [stepTrace, execOp, opEvents, update_todo, hg,
        Option.isSome_none, Bool.false_eq_true, if_false, List.append_nil]
      exact hinv
    | some todo =>
      obtain ⟨ud, uc⟩ := u
      cases ud <;> cases uc <;>
      · simp only [stepTrace, execOp, opEvents, update_todo, hg,
          Option.isSome_some, if_true]
        exact traceInv_put hinv hg rfl rfl rfl
  | toggleOp i n =>
    cases hg : s.get i with
    | none =>
      simp only [stepTrace, execOp, opEvents, toggle_todo_completion, hg,
        Option.isSome_none, Bool.false_eq_true, if_false, List.append_nil]
      exact hinv
    | some todo =>
      simp only [stepTrace, execOp, opEvents, toggle_todo_completion, hg,
        Option.isSome_some, if_true]
      exact traceInv_put hinv hg rfl rfl rfl
  | deleteOp i =>
    cases hg : s.get i with
    | none =>
      simp only [stepTrace, execOp, opEvents, delete_todo, hg,
        Option.isSome_none, Bool.false_eq_true, if_false, List.append_nil]
      exact hinv
    | some todo =>
      simp only [stepTrace, execOp, opEvents, delete_todo, hg,
        Option.isSome_some, if_true]
      exact traceInv_deleteRow hinv hg

theorem traceInv_foldl (ops : List Op) :
    ∀ p, TraceInv p → TraceInv (ops.foldl stepTrace p) := by
  induction ops with
  | nil => intro p h; exact h
  | cons op ops ih =>
    intro p h
    obtain ⟨s, evs⟩ := p
    exact ih _ (stepTrace_inv s evs op h)

theorem traceInv_empty : TraceInv (Store.empty, []) := by
  refine ⟨?_, ?_, ?_⟩ <;> simp [Store.empty]

theorem traceInv_execTrace (ops : List Op) : TraceInv (execTrace ops) :=
  traceInv_foldl ops _ traceInv_empty

/-! ## Shared concrete inputs for witnesses -/

/-- A concrete persisted item with id 0. -/
def demoItem : TodoItem :=
  { id := some 0, description := "a", completed := false,
    created_at := 7, updated_at := none }

/-- A concrete store holding `demoItem`. -/
def demoStore : Store := ⟨[demoItem], 1⟩

/-- A 500-character description. -/
def fullA : String := String.mk (List.replicate 500 'a')

/-- A 501-character description. -/
def longA : String := String.mk (List.replicate 501 'a')

theorem fullA_length : fullA.length = 500 := by
  have h : fullA.length = (List.replicate 500 'a').length := rfl
  rw [h, List.length_replicate]

theorem longA_length : 500 < longA.length := by
  have h : longA.length = (List.replicate 501 'a').length := rfl
  rw [h, List.length_replicate]
  omega

theorem pyRound1_zero : pyRound1 0 = 0 := by
  norm_num [pyRound1, roundHalfEven]

/-! ## Claims -/

/-- C1: for every store state, `stats()` returns a record where `total`
is the count of all items, `completed` the count of items whose
completed flag is true, `pending = total - completed`, and
`completionRate = round(completed/total*100, 1)` when `total > 0` and
`0` when `total = 0`; on an empty store all four fields are 0. -/
theorem stats_spec (s : Store) (n : Nat) :
    (get_todo_stats s).total = s.rows.length ∧
    (get_todo_stats s).completed = s.rows.countP (·.completed) ∧
    (get_todo_stats s).pending =
      (get_todo_stats s).total - (get_todo_stats s).completed ∧
    (get_todo_stats s).completion_rate =
      (if 0 < (get_todo_stats s).total then
        pyRound1 (((get_todo_stats s).completed : ℚ) /
          ((get_todo_stats s).total : ℚ) * 100)
      else 0) ∧
    get_todo_stats ⟨[], n⟩ = ⟨0, 0, 0, 0⟩ := by
  have hlen : (get_all_todos s).length = s.rows.length :=
    List.length_insertionSort _ _
  have hcount : (get_all_todos s).countP (·.completed) =
      s.rows.countP (·.completed) :=
    (List.perm_insertionSort createdGe s.rows).countP_eq _
  refine ⟨hlen, hcount, rfl, ?_, ?_⟩
  · have htot : (get_todo_stats s).total = (get_all_todos s).length := rfl
    have hcomp : (get_todo_stats s).completed =
        (get_all_todos s).countP (·.completed) := rfl
    have hrate : (get_todo_stats s).completion_rate =
        pyRound1 (if 0 < (get_all_todos s).length then
          ((get_all_todos s).countP (·.completed) : ℚ) /
            ((get_all_todos s).length : ℚ) * 100
        else 0) := rfl
    rw [htot, hcomp, hrate]
    by_cases hpos : 0 < (get_all_todos s).length
    · rw [if_pos hpos, if_pos hpos]
    · rw [if_neg hpos, if_neg hpos, pyRound1_zero]
  · simp [get_todo_stats, get_all_todos, pyRound1_zero]

/-- C2: `create(r)` returns a persisted snapshot with the request's
description, `completed = false`, `updated_at` absent, and a non-absent
id that differs from the id of any later create in the session
(whatever operations run in between). -/
theorem create_spec (r₁ r₂ : TodoItemCreate) (n₁ n₂ : Nat) (s : Store)
    (ops : List Op) :
    (create_todo r₁ n₁ s).1.description = r₁.description ∧
    (create_todo r₁ n₁ s).1.completed = false ∧
    (create_todo r₁ n₁ s).1.updated_at = none ∧
    (create_todo r₁ n₁ s).1.id = some s.nextId ∧
    (create_todo r₁ n₁ s).1.id ≠
      (create_todo r₂ n₂ (execList ops (create_todo r₁ n₁ s).2)).1.id := by
  refine ⟨rfl, rfl, rfl, rfl, ?_⟩
  have h2 := nextId_execList ops (create_todo r₁ n₁ s).2
  have h1 : (create_todo r₁ n₁ s).2.nextId = s.nextId + 1 := rfl
  rw [h1] at h2
  intro habs
  have h3 := Option.some_injective _ habs
  omega

/-- C3: on an existing id, `update` overwrites exactly the fields
present in the request, leaves absent fields unchanged, unconditionally
stamps `updated_at = now` (even for an empty request), and stores the
result. -/
theorem update_partiality (i now : Nat) (u : TodoItemUpdate) (s : Store)
    (todo : TodoItem) (h : s.get i = some todo) :
    (update_todo i u now s).1 =
      some { todo with
             description := u.description.getD todo.description,
             completed := u.completed.getD todo.completed,
             updated_at := some now } ∧
    (update_todo i u now s).2.get i = (update_todo i u now s).1 := by
  obtain ⟨ud, uc⟩ := u
  cases ud <;> cases uc <;>
  · simp only [update_todo, h, Option.getD]
    exact ⟨by trivial, Store.get_put h rfl⟩

/-- C3 witness: updating `demoStore`'s item with an empty request still
stamps `updated_at`. -/
theorem update_partiality_witness :
    demoStore.get 0 = some demoItem ∧
    ((update_todo 0 ⟨none, none⟩ 9 demoStore).1 =
      some { demoItem with
             description := (none : Option String).getD demoItem.description,
             completed := (none : Option Bool).getD demoItem.completed,
             updated_at := some 9 } ∧
     (update_todo 0 ⟨none, none⟩ 9 demoStore).2.get 0 =
       (update_todo 0 ⟨none, none⟩ 9 demoStore).1) :=
  ⟨rfl, update_partiality 0 9 ⟨none, none⟩ demoStore demoItem rfl⟩

/-- C4: on a missing id, `getById`/`update`/`toggleCompletion` return
absent, `delete` returns false, and the store is left untouched. -/
theorem missing_id_behaviour (i now : Nat) (u : TodoItemUpdate) (s : Store)
    (h : s.get i = none) :
    get_todo_by_id i s = none ∧
    update_todo i u now s = (none, s) ∧
    toggle_todo_completion i now s = (none, s) ∧
    delete_todo i s = (false, s) := by
  refine ⟨h, ?_, ?_, ?_⟩ <;>
    simp [update_todo, toggle_todo_completion, delete_todo, h]

/-- C4 witness: id 0 on the empty store. -/
theorem missing_id_behaviour_witness :
    Store.empty.get 0 = none ∧
    (get_todo_by_id 0 Store.empty = none ∧
     update_todo 0 ⟨none, none⟩ 5 Store.empty = (none, Store.empty) ∧
     toggle_todo_completion 0 5 Store.empty = (none, Store.empty) ∧
     delete_todo 0 Store.empty = (false, Store.empty)) :=
  ⟨rfl, missing_id_behaviour 0 5 ⟨none, none⟩ Store.empty rfl⟩

/-- C5: on an existing id, `toggleCompletion` flips the completed flag
and stamps `updated_at`; applied twice it returns `completed` to its
original value with `updated_at` stamped by each of the two calls. -/
theorem toggle_involution (i n₁ n₂ : Nat) (s : Store) (todo : TodoItem)
    (h : s.get i = some todo) :
    (toggle_todo_completion i n₁ s).1 =
      some { todo with completed := !todo.completed,
                       updated_at := some n₁ } ∧
    (toggle_todo_completion i n₂ (toggle_todo_completion i n₁ s).2).1 =
      some { todo with completed := todo.completed,
                       updated_at := some n₂ } := by
  have e₁ : toggle_todo_completion i n₁ s =
      (some { todo with completed := !todo.completed,
                        updated_at := some n₁ },
       s.put { todo with completed := !todo.completed,
                         updated_at := some n₁ }) := by
    simp only [toggle_todo_completion, h]
  have hget₁ : (s.put { todo with completed := !todo.completed,
                                  updated_at := some n₁ }).get i =
      some { todo with completed := !todo.completed,
                       updated_at := some n₁ } :=
    Store.get_put h rfl
  refine ⟨by rw [e₁], ?_⟩
  rw [e₁]
  simp only [toggle_todo_completion, hget₁, Bool.not_not]

/-- C5 witness: toggling `demoStore`'s item twice. -/
theorem toggle_involution_witness :
    demoStore.get 0 = some demoItem ∧
    ((toggle_todo_completion 0 8 demoStore).1 =
      some { demoItem with completed := !demoItem.completed,
                           updated_at := some 8 } ∧
     (toggle_todo_completion 0 9 (toggle_todo_completion 0 8 demoStore).2).1 =
      some { demoItem with completed := demoItem.completed,
                           updated_at := some 9 }) :=
  ⟨rfl, toggle_involution 0 8 9 demoStore demoItem rfl⟩

/-- C6: `listAll()` returns every stored item exactly once, ordered by
`created_at` descending, and the empty sequence on an empty store. -/
theorem list_all_spec (s : Store) (n : Nat) :
    (get_all_todos s).Perm s.rows ∧
    List.Sorted createdGe (get_all_todos s) ∧
    get_all_todos ⟨[], n⟩ = [] :=
  ⟨List.perm_insertionSort createdGe s.rows,
   List.sorted_insertionSort createdGe s.rows, rfl⟩

/-- C7: a 500-unit description is accepted by create and stored
verbatim; a longer one is rejected when constructing a creation or
update request, and is not persistable as a `TodoItem` row. -/
theorem description_boundary (dfull dlong : String)
    (hfull : dfull.length = 500) (hlong : 500 < dlong.length)
    (c : Option Bool) (now : Nat) (s : Store) :
    mkTodoItemCreate dfull = some ⟨dfull⟩ ∧
    (create_todo ⟨dfull⟩ now s).1.description = dfull ∧
    (create_todo ⟨dfull⟩ now s).1 ∈ (create_todo ⟨dfull⟩ now s).2.rows ∧
    (create_todo ⟨dfull⟩ now s).1.persistable = true ∧
    mkTodoItemCreate dlong = none ∧
    mkTodoItemUpdate (some dlong) c = none ∧
    (∀ t : TodoItem, t.description = dlong → t.persistable = false) := by
  refine ⟨?_, rfl, ?_, ?_, ?_, ?_, ?_⟩
  · simp [mkTodoItemCreate, hfull]
  · simp [create_todo, Store.insert]
  · simp [TodoItem.persistable, create_todo, Store.insert, hfull]
  · simp [mkTodoItemCreate]
    omega
  · simp [mkTodoItemUpdate]
    omega
  · intro t ht
    simp [TodoItem.persistable, ht]
    omega

/-- C7 witness: the 500- and 501-character descriptions `fullA` and
`longA`. -/
theorem description_boundary_witness :
    (fullA.length = 500 ∧ 500 < longA.length) ∧
    (mkTodoItemCreate fullA = some ⟨fullA⟩ ∧
     (create_todo ⟨fullA⟩ 3 Store.empty).1.description = fullA ∧
     (create_todo ⟨fullA⟩ 3 Store.empty).1 ∈
       (create_todo ⟨fullA⟩ 3 Store.empty).2.rows ∧
     (create_todo ⟨fullA⟩ 3 Store.empty).1.persistable = true ∧
     mkTodoItemCreate longA = none ∧
     mkTodoItemUpdate (some longA) none = none ∧
     (∀ t : TodoItem, t.description = longA → t.persistable = false)) :=
  ⟨⟨fullA_length, longA_length⟩,
   description_boundary fullA longA fullA_length longA_length none 3
     Store.empty⟩

/-- C8: in every reachable store, each item's `created_at` is exactly
the timestamp of its unique creation event, and `updated_at` is absent
iff no successful mutation (update or toggle) has been logged for its
id since creation. -/
theorem timestamp_bookkeeping (ops : List Op) (r : TodoItem)
    (hr : r ∈ (execTrace ops).1.rows) :
    ∃ i, r.id = some i ∧
      Event.created i r.created_at ∈ (execTrace ops).2 ∧
      (∀ c, Event.created i c ∈ (execTrace ops).2 → c = r.created_at) ∧
      (r.updated_at = none ↔ Event.mutated i ∉ (execTrace ops).2) := by
  obtain ⟨h1, h2, h3⟩ := traceInv_execTrace ops
  obtain ⟨i, hi, _, hcr, hiff⟩ := h3 r hr
  exact ⟨i, hi, hcr, fun c hc => h2 i c r.created_at hc hcr, hiff⟩

/-- C8 witness: the single item of a one-create session. -/
theorem timestamp_bookkeeping_witness :
    ((⟨some 0, "a", false, 7, none⟩ : TodoItem) ∈
      (execTrace [Op.createOp ⟨"a"⟩ 7]).1.rows) ∧
    (∃ i, (⟨some 0, "a", false, 7, none⟩ : TodoItem).id = some i ∧
      Event.created i (⟨some 0, "a", false, 7, none⟩ : TodoItem).created_at ∈
        (execTrace [Op.createOp ⟨"a"⟩ 7]).2 ∧
      (∀ c, Event.created i c ∈ (execTrace [Op.createOp ⟨"a"⟩ 7]).2 →
        c = (⟨some 0, "a", false, 7, none⟩ : TodoItem).created_at) ∧
      ((⟨some 0, "a", false, 7, none⟩ : TodoItem).updated_at = none ↔
        Event.mutated i ∉ (execTrace [Op.createOp ⟨"a"⟩ 7]).2)) :=
  ⟨by decide, timestamp_bookkeeping [Op.createOp ⟨"a"⟩ 7] _ (by decide)⟩

/-- C9: on a present id, `delete` returns true and removes the item:
afterwards `getById` is absent and a second `delete` returns false. -/
theorem delete_finality (i : Nat) (s : Store) (t : TodoItem)
    (h : s.get i = some t) :
    (delete_todo i s).1 = true ∧
    get_todo_by_id i (delete_todo i s).2 = none ∧
    delete_todo i (delete_todo i s).2 = (false, (delete_todo i s).2) := by
  have h2 : delete_todo i s = (true, s.deleteRow i) := by
    simp [delete_todo, h]
  have h3 : (s.deleteRow i).get i = none := Store.get_deleteRow s i
  rw [h2]
  exact ⟨rfl, h3, by simp [delete_todo, h3]⟩

/-- C9 witness: deleting `demoStore`'s item. -/
theorem delete_finality_witness :
    demoStore.get 0 = some demoItem ∧
    ((delete_todo 0 demoStore).1 = true ∧
     get_todo_by_id 0 (delete_todo 0 demoStore).2 = none ∧
     delete_todo 0 (delete_todo 0 demoStore).2 =
       (false, (delete_todo 0 demoStore).2)) :=
  ⟨rfl, delete_finality 0 demoStore demoItem rfl⟩

/-- C10: on an existing id, `toggleCompletion` changes only the item's
`completed` and `updated_at`: its description, creation timestamp and
id are unchanged, and every other row of the store is untouched. -/
theorem toggle_frame (i now : Nat) (s : Store) (todo : TodoItem)
    (h : s.get i = some todo) :
    (toggle_todo_completion i now s).1 =
      some { todo with completed := !todo.completed,
                       updated_at := some now } ∧
    ({ todo with completed := !todo.completed,
                 updated_at := some now } : TodoItem).description =
      todo.description ∧
    ({ todo with completed := !todo.completed,
                 updated_at := some now } : TodoItem).created_at =
      todo.created_at ∧
    ({ todo with completed := !todo.completed,
                 updated_at := some now } : TodoItem).id = todo.id ∧
    (toggle_todo_completion i now s).2.nextId = s.nextId ∧
    (toggle_todo_completion i now s).2.rows =
      (s.rows.map fun x => if x.id = some i then
        { todo with completed := !todo.completed, updated_at := some now }
      else x) ∧
    (∀ x ∈ s.rows, x.id ≠ some i →
      x ∈ (toggle_todo_completion i now s).2.rows) := by
  have hid : todo.id = some i := Store.id_of_get h
  have e : toggle_todo_completion i now s =
      (some { todo with completed := !todo.completed,
                        updated_at := some now },
       s.put { todo with completed := !todo.completed,
                         updated_at := some now }) := by
    simp only [toggle_todo_completion, h]
  rw [e]
  refine ⟨rfl, rfl, rfl, rfl, rfl, ?_, ?_⟩
  · simp only [Store.put, hid]
  · intro x hx hxi
    simp only [Store.put, List.mem_map]
    refine ⟨x, hx, ?_⟩
    rw [if_neg]
    rw [hid]
    exact hxi

/-- C10 witness: toggling `demoStore`'s item leaves the other fields
alone. -/
theorem toggle_frame_witness :
    demoStore.get 0 = some demoItem ∧
    ((toggle_todo_completion 0 8 demoStore).1 =
      some { demoItem with completed := !demoItem.completed,
                           updated_at := some 8 } ∧
     ({ demoItem with completed := !demoItem.completed,
                      updated_at := some 8 } : TodoItem).description =
       demoItem.description ∧
     ({ demoItem with completed := !demoItem.completed,
                      updated_at := some 8 } : TodoItem).created_at =
       demoItem.created_at ∧
     ({ demoItem with completed := !demoItem.completed,
                      updated_at := some 8 } : TodoItem).id = demoItem.id ∧
     (toggle_todo_completion 0 8 demoStore).2.nextId = demoStore.nextId ∧
     (toggle_todo_completion 0 8 demoStore).2.rows =
       (demoStore.rows.map fun x => if x.id = some 0 then
         { demoItem with completed := !demoItem.completed,
                         updated_at := some 8 }
       else x) ∧
     (∀ x ∈ demoStore.rows, x.id ≠ some 0 →
       x ∈ (toggle_todo_completion 0 8 demoStore).2.rows)) :=
  ⟨rfl, toggle_frame 0 8 demoStore demoItem rfl⟩
